import Mathlib

/-!
Verification of the ellipsis-fitting core and render helpers of the
typography / empty-state component library.

The ellipsis fitter (`fit`) is modelled from the specification: the
`measure` routine lives in `typography/util`, which is not part of the
sources at hand (only its caller `Base.syncEllipsis` is), so the fitter
below follows the spec's algorithm text (line budget, full-text fast
path, binary search over prefix lengths, fail-open short circuit).
`wrapperDecorations`, `syncEllipsis` and `renderEmpty` are embedded
directly from the sources.
-/

namespace AntDesign

/-- Content handed to the measurable surface: a text run or an opaque
trailing decoration node (identified by a numeric id; in demo surfaces
the id doubles as the node's layout width). -/
inductive RenderNode where
  | text : List Char → RenderNode
  | deco : Nat → RenderNode
deriving DecidableEq

/-- Modelled from the spec: a MeasurableSurface is an opaque handle to a
rendering context that can report the height of rendered content.
`available` is false for zero-size or detached surfaces, `lineHeight` is
the height of one line at current font metrics, `epsilon` the sub-pixel
rounding tolerance, and `measure` the rendered pixel height of content. -/
structure MeasurableSurface where
  available : Bool
  lineHeight : Nat
  epsilon : Nat
  measure : List RenderNode → Nat

/-- Modelled from the spec: an immutable fitting request. -/
structure FittingRequest where
  fullText : List Char
  maxLines : Nat
  decorations : List Nat
  ellipsisMarker : List Char
deriving DecidableEq

/-- Modelled from the spec: the result of one fitting pass. -/
structure FittingResult where
  fittingText : List Char
  isTruncated : Bool
  renderedContent : List Char
deriving DecidableEq

/-- Height budget: single-line height times `maxLines`. -/
def maxHeightOf (s : MeasurableSurface) (req : FittingRequest) : Nat :=
  s.lineHeight * req.maxLines

/-- The fragment measured for candidate prefix length `mid`:
`fullText[0:mid] + ellipsisMarker` followed by the trailing decorations. -/
def fragAt (req : FittingRequest) (mid : Nat) : List RenderNode :=
  RenderNode.text (req.fullText.take mid ++ req.ellipsisMarker) ::
    req.decorations.map RenderNode.deco

/-- The fragment measured for the full-text fast path: the whole text
followed by the trailing decorations. -/
def fullFrag (req : FittingRequest) : List RenderNode :=
  RenderNode.text req.fullText :: req.decorations.map RenderNode.deco

/-- The candidate at prefix length `mid` fits the line budget
(within the epsilon tolerance). -/
def fitsAt (s : MeasurableSurface) (req : FittingRequest) (mid : Nat) : Bool :=
  decide (s.measure (fragAt req mid) ≤ maxHeightOf s req + s.epsilon)

/-- Fuel-driven binary search for the greatest index in `[lo, hi]`
satisfying a downward-closed predicate; returns `lo` when nothing above
`lo` satisfies it. -/
def bsearchFuel (p : Nat → Bool) : Nat → Nat → Nat → Nat
  | 0, lo, _ => lo
  | fuel + 1, lo, hi =>
    if lo < hi then
      if p ((lo + hi + 1) / 2) then bsearchFuel p fuel ((lo + hi + 1) / 2) hi
      else bsearchFuel p fuel lo ((lo + hi + 1) / 2 - 1)
    else lo

/-- Binary search over `[lo, hi]`; `hi - lo` steps always suffice. -/
def bsearch (p : Nat → Bool) (lo hi : Nat) : Nat :=
  bsearchFuel p (hi - lo) lo hi

/-- Modelled from the spec: the ellipsis fitter. Detached or zero-size
surfaces fail open to the full text; a full text that fits the budget is
returned untruncated; otherwise a binary search over prefix lengths of
`fullText` picks the truncation point, and the rendered content is the
prefix plus the ellipsis marker (decorations are accounted for during
measurement but not embedded). -/
def fit (s : MeasurableSurface) (req : FittingRequest) : FittingResult :=
  if s.available = false then
    ⟨req.fullText, false, req.fullText⟩
  else if s.measure (fullFrag req) ≤ maxHeightOf s req + s.epsilon then
    ⟨req.fullText, false, req.fullText⟩
  else
    ⟨req.fullText.take (bsearch (fitsAt s req) 0 req.fullText.length), true,
      req.fullText.take (bsearch (fitsAt s req) 0 req.fullText.length) ++
        req.ellipsisMarker⟩

/-- The fragment a returned result stands for: its rendered content
followed by the trailing decorations of the request. -/
def resultFrag (req : FittingRequest) (r : FittingResult) : List RenderNode :=
  RenderNode.text r.renderedContent :: req.decorations.map RenderNode.deco

theorem bsearchFuel_ge (p : Nat → Bool) :
    ∀ fuel lo hi, lo ≤ bsearchFuel p fuel lo hi := by
  intro fuel
  induction fuel with
  | zero => intro lo hi; simp [bsearchFuel]
  | succ n ih =>
    intro lo hi
    simp only [bsearchFuel]
    by_cases h : lo < hi
    · rw [if_pos h]
      by_cases hp : p ((lo + hi + 1) / 2) = true
      · rw [if_pos hp]
        exact le_trans (by omega) (ih ((lo + hi + 1) / 2) hi)
      · rw [if_neg hp]
        exact ih lo ((lo + hi + 1) / 2 - 1)
    · rw [if_neg h]

theorem bsearchFuel_le (p : Nat → Bool) :
    ∀ fuel lo hi, lo ≤ hi → bsearchFuel p fuel lo hi ≤ hi := by
  intro fuel
  induction fuel with
  | zero => intro lo hi h; simpa [bsearchFuel] using h
  | succ n ih =>
    intro lo hi h
    simp only [bsearchFuel]
    by_cases hlt : lo < hi
    · rw [if_pos hlt]
      by_cases hp : p ((lo + hi + 1) / 2) = true
      · rw [if_pos hp]
        exact ih ((lo + hi + 1) / 2) hi (by omega)
      · rw [if_neg hp]
        exact le_trans (ih lo ((lo + hi + 1) / 2 - 1) (by omega)) (by omega)
    · rw [if_neg hlt]
      exact h

theorem bsearchFuel_inv (p : Nat → Bool) :
    ∀ fuel lo hi, p lo = true → p (bsearchFuel p fuel lo hi) = true := by
  intro fuel
  induction fuel with
  | zero => intro lo hi h; simpa [bsearchFuel] using h
  | succ n ih =>
    intro lo hi h
    simp only [bsearchFuel]
    by_cases hlt : lo < hi
    · rw [if_pos hlt]
      by_cases hp : p ((lo + hi + 1) / 2) = true
      · rw [if_pos hp]
        exact ih ((lo + hi + 1) / 2) hi hp
      · rw [if_neg hp]
        exact ih lo ((lo + hi + 1) / 2 - 1) h
    · rw [if_neg hlt]
      exact h

theorem bsearchFuel_max (p : Nat → Bool)
    (hdc : ∀ i j, i ≤ j → p j = true → p i = true) :
    ∀ fuel lo hi k, hi - lo ≤ fuel → lo ≤ k → k ≤ hi → p k = true →
      k ≤ bsearchFuel p fuel lo hi := by
  intro fuel
  induction fuel with
  | zero =>
    intro lo hi k hfuel hlo hk _
    simp only [bsearchFuel]
    omega
  | succ n ih =>
    intro lo hi k hfuel hlo hk hp
    simp only [bsearchFuel]
    by_cases hlt : lo < hi
    · rw [if_pos hlt]
      by_cases hpm : p ((lo + hi + 1) / 2) = true
      · rw [if_pos hpm]
        by_cases hkm : k ≤ (lo + hi + 1) / 2
        · exact le_trans hkm (bsearchFuel_ge p n ((lo + hi + 1) / 2) hi)
        · exact ih ((lo + hi + 1) / 2) hi k (by omega) (by omega) hk hp
      · rw [if_neg hpm]
        have hkm : k ≤ (lo + hi + 1) / 2 - 1 := by
          by_contra hcon
          exact hpm (hdc ((lo + hi + 1) / 2) k (by omega) hp)
        exact ih lo ((lo + hi + 1) / 2 - 1) k (by omega) hlo hkm hp
    · rw [if_neg hlt]
      omega

theorem bsearchFuel_allFalse (p : Nat → Bool) :
    ∀ fuel lo hi, (∀ k, lo ≤ k → k ≤ hi → p k = false) →
      bsearchFuel p fuel lo hi = lo := by
  intro fuel
  induction fuel with
  | zero => intro lo hi _; simp [bsearchFuel]
  | succ n ih =>
    intro lo hi hall
    simp only [bsearchFuel]
    by_cases hlt : lo < hi
    · rw [if_pos hlt]
      have hm : p ((lo + hi + 1) / 2) = false :=
        hall ((lo + hi + 1) / 2) (by omega) (by omega)
      rw [if_neg (by simp [hm])]
      exact ih lo ((lo + hi + 1) / 2 - 1)
        (fun k h1 h2 => hall k h1 (by omega))
    · rw [if_neg hlt]

theorem bsearch_ge (p : Nat → Bool) (lo hi : Nat) : lo ≤ bsearch p lo hi :=
  bsearchFuel_ge p (hi - lo) lo hi

theorem bsearch_le (p : Nat → Bool) (lo hi : Nat) (h : lo ≤ hi) :
    bsearch p lo hi ≤ hi :=
  bsearchFuel_le p (hi - lo) lo hi h

theorem bsearch_inv (p : Nat → Bool) (lo hi : Nat) (h : p lo = true) :
    p (bsearch p lo hi) = true :=
  bsearchFuel_inv p (hi - lo) lo hi h

theorem bsearch_max (p : Nat → Bool)
    (hdc : ∀ i j, i ≤ j → p j = true → p i = true)
    (lo hi k : Nat) (hlo : lo ≤ k) (hk : k ≤ hi) (hp : p k = true) :
    k ≤ bsearch p lo hi :=
  bsearchFuel_max p hdc (hi - lo) lo hi k (le_refl _) hlo hk hp

theorem bsearch_allFalse (p : Nat → Bool) (lo hi : Nat)
    (hall : ∀ k, lo ≤ k → k ≤ hi → p k = false) : bsearch p lo hi = lo :=
  bsearchFuel_allFalse p (hi - lo) lo hi hall

/-- The triple returned by the external `measure` routine, as consumed
by `Base.syncEllipsis`: the measured ellipsis content, its text, and
whether truncation happened. -/
structure MeasureResult where
  content : List Char
  text : List Char
  ellipsis : Bool
deriving DecidableEq

/-- The slice of `BaseState` that `Base.syncEllipsis` reads and writes:
`ellipsisText`, `ellipsisContent`, `isEllipsis` and the `extended` flag
consulted by its guard. -/
structure BaseState where
  ellipsisText : List Char
  ellipsisContent : List Char
  isEllipsis : Bool
  extended : Bool
deriving DecidableEq

/-- The `!rows || rows < 0` guard of `Base.syncEllipsis`: fires when
`rows` is absent, zero (falsy) or negative. -/
def rowsInvalid : Option Int → Bool
  | none => true
  | some r => decide (r ≤ 0)

/-- `Base.syncEllipsis` as a state transition: bail out when the guard
fires, otherwise adopt the measured text, content and ellipsis flag when
either the text or the flag differs from the stored state. The `measure`
call is deterministic for an unchanged surface, so its result is passed
in as `m`. -/
def syncEllipsis (rows : Option Int) (hasContent : Bool) (m : MeasureResult)
    (st : BaseState) : BaseState :=
  if rowsInvalid rows || !hasContent || st.extended then st
  else if st.ellipsisText ≠ m.text ∨ st.isEllipsis ≠ m.ellipsis then
    { st with ellipsisText := m.text, ellipsisContent := m.content,
              isEllipsis := m.ellipsis }
  else st

/-- An abstract renderable value: an opaque leaf or a tag element
wrapping children (the shape `React.createElement(tag, ...)` builds). -/
inductive RNode where
  | raw : Nat → RNode
  | elem : String → RNode → RNode
deriving DecidableEq

/-- The decoration flags destructured by `wrapperDecorations`. -/
structure DecorationProps where
  mark : Bool
  code : Bool
  underline : Bool
  delete : Bool
  strong : Bool
deriving DecidableEq

/-- The `wrap` helper of `wrapperDecorations`: wrap the current content
in a tag element when the flag is set, otherwise leave it unchanged. -/
def wrapIf (needed : Bool) (tag : String) (c : RNode) : RNode :=
  if needed then RNode.elem tag c else c

/-- `wrapperDecorations`: wrap content successively for `strong`, `u`,
`del`, `code` and `mark`, in that application order (so `mark` ends up
outermost). -/
def wrapperDecorations (props : DecorationProps) (content : RNode) : RNode :=
  wrapIf props.mark "mark"
    (wrapIf props.code "code"
      (wrapIf props.delete "del"
        (wrapIf props.underline "u"
          (wrapIf props.strong "strong" content))))

/-- The wrapper tags of a renderable, outermost first. -/
def wrapTags : RNode → List String
  | RNode.raw _ => []
  | RNode.elem t c => t :: wrapTags c

/-- The innermost leaf of a renderable. -/
def innerOf : RNode → RNode
  | RNode.raw n => RNode.raw n
  | RNode.elem _ c => innerOf c

/-- The inlined empty-state image data URI of `renderEmpty`. -/
def emptyImg : String :=
  "data:image/svg+xml;base64,PHN2ZyB3aWR0aD0iNjQiIGhlaWdodD0iNDEiIHhtbG5zPSJodHRwOi8vd3d3LnczLm9yZy8yMDAwL3N2ZyI+DQogIDxnIHRyYW5zZm9ybT0idHJhbnNsYXRlKDAgMSkiIGZpbGw9Im5vbmUiIGZpbGwtcnVsZT0iZXZlbm9kZCI+DQogICAgPGVsbGlwc2UgZmlsbD0iI0Y1RjVGNSIgY3g9IjMyIiBjeT0iMzMiIHJ4PSIzMiIgcnk9IjciLz4NCiAgICA8ZyBmaWxsLXJ1bGU9Im5vbnplcm8iIHN0cm9rZT0iI0Q5RDlEOSI+DQogICAgICA8cGF0aCBkPSJNNTUgMTIuNzZMNDQuODU0IDEuMjU4QzQ0LjM2Ny40NzQgNDMuNjU2IDAgNDIuOTA3IDBIMjEuMDkzYy0uNzQ5IDAtMS40Ni40NzQtMS45NDcgMS4yNTdMOSAxMi43NjFWMjJoNDZ2LTkuMjR6Ii8+DQogICAgICA8cGF0aCBkPSJNNDEuNjEzIDE1LjkzMWMwLTEuNjA1Ljk5NC0yLjkzIDIuMjI3LTIuOTMxSDU1djE4LjEzN0M1NSAzMy4yNiA1My42OCAzNSA1Mi4wNSAzNWgtNDAuMUMxMC4zMiAzNSA5IDMzLjI1OSA5IDMxLjEzN1YxM2gxMS4xNmMxLjIzMyAwIDIuMjI3IDEuMzIzIDIuMjI3IDIuOTI4di4wMjJjMCAxLjYwNSAxLjAwNSAyLjkwMSAyLjIzNyAyLjkwMWgxNC43NTJjMS4yMzIgMCAyLjIzNy0xLjMwOCAyLjIzNy0yLjkxM3YtLjAwN3oiIGZpbGw9IiNGQUZBRkEiLz4NCiAgICA8L2c+DQogIDwvZz4NCjwvc3ZnPg0K"

/-- The `Empty` element produced by `renderEmpty`: its optional `image`
and `className` props (`none` for a plain `Empty` with no overrides). -/
structure EmptyElement where
  image : Option String
  className : Option String
deriving DecidableEq

/-- `renderEmpty`: switch on the component name; `Table` and `List` get
the small image with the `-normal` suffixed class, the four selector
components get it with the `-small` suffixed class, everything else gets
a plain `Empty`. `getPrefixCls` is the config consumer's resolver. -/
def renderEmpty (getPrefixCls : String → String) (componentName : String) :
    EmptyElement :=
  if componentName = "Table" ∨ componentName = "List" then
    ⟨some emptyImg, some (getPrefixCls "empty" ++ "-normal")⟩
  else if componentName = "Select" ∨ componentName = "TreeSelect" ∨
      componentName = "Cascader" ∨ componentName = "Transfer" then
    ⟨some emptyImg, some (getPrefixCls "empty" ++ "-small")⟩
  else
    ⟨none, none⟩

/-- Demo measure: a text run is as wide as its character count, a
decoration node as wide as its id; heights add up (one-dimensional
layout model for concrete witnesses). -/
def demoMeasure : List RenderNode → Nat
  | [] => 0
  | RenderNode.text s :: rest => s.length + demoMeasure rest
  | RenderNode.deco w :: rest => w + demoMeasure rest

/-- A live demo surface: 10 units per line, no rounding tolerance. -/
def demoSurface : MeasurableSurface :=
  { available := true, lineHeight := 10, epsilon := 0, measure := demoMeasure }

/-- A detached demo surface (not measurable). -/
def demoSurfaceOff : MeasurableSurface :=
  { available := false, lineHeight := 10, epsilon := 0, measure := demoMeasure }

/-- A 12-character demo text. -/
def demoText : List Char :=
  ['a', 'b', 'c', 'd', 'e', 'f', 'g', 'h', 'i', 'j', 'k', 'l']

/-- The default three-dot ellipsis marker. -/
def demoMarker : List Char :=
  ['.', '.', '.']

/-- One-line request over the demo text, no decorations. -/
def demoReq : FittingRequest :=
  { fullText := demoText, maxLines := 1, decorations := [],
    ellipsisMarker := demoMarker }

/-- The demo request with a single decoration 100 units wide, which on
its own exceeds the one-line budget of `demoSurface`. -/
def demoReqDeco : FittingRequest :=
  { fullText := demoText, maxLines := 1, decorations := [100],
    ellipsisMarker := demoMarker }

/-- A request with empty full text. -/
def demoReqEmpty : FittingRequest :=
  { fullText := [], maxLines := 1, decorations := [],
    ellipsisMarker := demoMarker }

theorem fit_of_unavailable (s : MeasurableSurface) (req : FittingRequest)
    (h : s.available = false) :
    fit s req = ⟨req.fullText, false, req.fullText⟩ := by
  simp [fit, h]

theorem fit_of_fullFits (s : MeasurableSurface) (req : FittingRequest)
    (h : s.measure (fullFrag req) ≤ maxHeightOf s req + s.epsilon) :
    fit s req = ⟨req.fullText, false, req.fullText⟩ := by
  by_cases hav : s.available = false
  · simp [fit, hav]
  · simp [fit, hav, h]

theorem fit_of_truncating (s : MeasurableSurface) (req : FittingRequest)
    (hav : s.available = true)
    (h : ¬ s.measure (fullFrag req) ≤ maxHeightOf s req + s.epsilon) :
    fit s req =
      ⟨req.fullText.take (bsearch (fitsAt s req) 0 req.fullText.length), true,
        req.fullText.take (bsearch (fitsAt s req) 0 req.fullText.length) ++
          req.ellipsisMarker⟩ := by
  simp [fit, hav, h]

/-- A downward-closed measure (monotone in the prefix length) makes each
fitting predicate downward closed, whatever the budget. -/
theorem fitsAt_downward (s : MeasurableSurface) (req : FittingRequest)
    (hmono : ∀ i j, i ≤ j →
      s.measure (fragAt req i) ≤ s.measure (fragAt req j)) :
    ∀ i j, i ≤ j → fitsAt s req j = true → fitsAt s req i = true := by
  intro i j hij hj
  simp only [fitsAt, decide_eq_true_eq] at hj ⊢
  exact le_trans (hmono i j hij) hj

/-- Claim C2: for every fitting request, the `fittingText` of the
returned `FittingResult` is a literal prefix of `fullText`, and whenever
`isTruncated` is false, `fittingText` equals `fullText`. -/
theorem fit_prefixProperty (s : MeasurableSurface) (req : FittingRequest) :
    (∃ rest, (fit s req).fittingText ++ rest = req.fullText) ∧
    ((fit s req).isTruncated = false →
      (fit s req).fittingText = req.fullText) := by
  by_cases hav : s.available = false
  · rw [fit_of_unavailable s req hav]
    exact ⟨⟨[], List.append_nil _⟩, fun _ => rfl⟩
  · by_cases hf : s.measure (fullFrag req) ≤ maxHeightOf s req + s.epsilon
    · rw [fit_of_fullFits s req hf]
      exact ⟨⟨[], List.append_nil _⟩, fun _ => rfl⟩
    · rw [fit_of_truncating s req (by simpa using hav) hf]
      refine ⟨⟨req.fullText.drop
        (bsearch (fitsAt s req) 0 req.fullText.length), ?_⟩, ?_⟩
      · exact List.take_append_drop _ _
      · intro hcon
        simp at hcon

/-- Claim C4: for every request whose full text plus trailing
decorations measures at most `maxHeight` (within epsilon) — including an
empty `fullText` — `fit` returns `isTruncated = false` and `fittingText`
equal to `fullText`. -/
theorem fit_noop (s : MeasurableSurface) (req : FittingRequest)
    (hfit : s.measure (fullFrag req) ≤ maxHeightOf s req + s.epsilon) :
    (fit s req).isTruncated = false ∧
    (fit s req).fittingText = req.fullText := by
  rw [fit_of_fullFits s req hfit]
  exact ⟨rfl, rfl⟩

/-- Witness for C4, on the empty-text request over the live demo
surface (the spec's empty-text scenario). -/
theorem fit_noop_witness :
    demoSurface.measure (fullFrag demoReqEmpty) ≤
      maxHeightOf demoSurface demoReqEmpty + demoSurface.epsilon ∧
    ((fit demoSurface demoReqEmpty).isTruncated = false ∧
      (fit demoSurface demoReqEmpty).fittingText = demoReqEmpty.fullText) :=
  ⟨by decide, fit_noop demoSurface demoReqEmpty (by decide)⟩

/-- Claim C7: `fit` is a total function — it always returns a
`FittingResult` — and on a surface unavailable for measurement
(zero-size or detached) it short-circuits to the non-truncated result
carrying the full text. -/
theorem fit_failOpen (s : MeasurableSurface) (req : FittingRequest)
    (h : s.available = false) :
    (fit s req).isTruncated = false ∧
    (fit s req).fittingText = req.fullText ∧
    (fit s req).renderedContent = req.fullText := by
  rw [fit_of_unavailable s req h]
  exact ⟨rfl, rfl, rfl⟩

/-- Witness for C7, on the detached demo surface. -/
theorem fit_failOpen_witness :
    demoSurfaceOff.available = false ∧
    ((fit demoSurfaceOff demoReq).isTruncated = false ∧
      (fit demoSurfaceOff demoReq).fittingText = demoReq.fullText ∧
      (fit demoSurfaceOff demoReq).renderedContent = demoReq.fullText) :=
  ⟨rfl, fit_failOpen demoSurfaceOff demoReq rfl⟩

/-- Claim C1: on a measurable surface whose measure is downward closed
in the prefix length, when the full text does not fit the budget, `fit`
truncates at the maximal prefix length whose rendered fragment fits
(ties broken towards the longest prefix), and when not even the empty
prefix fits it returns an empty `fittingText` with `isTruncated = true`. -/
theorem fit_maximal (s : MeasurableSurface) (req : FittingRequest)
    (hav : s.available = true)
    (hfull : ¬ s.measure (fullFrag req) ≤ maxHeightOf s req + s.epsilon)
    (hdc : ∀ i j, i ≤ j → fitsAt s req j = true → fitsAt s req i = true) :
    ∃ m, m ≤ req.fullText.length ∧
      fit s req = ⟨req.fullText.take m, true,
        req.fullText.take m ++ req.ellipsisMarker⟩ ∧
      (∀ k, k ≤ req.fullText.length → fitsAt s req k = true → k ≤ m) ∧
      (fitsAt s req 0 = true → fitsAt s req m = true) ∧
      (fitsAt s req 0 = false →
        m = 0 ∧ (fit s req).fittingText = []) := by
  refine ⟨bsearch (fitsAt s req) 0 req.fullText.length,
    bsearch_le _ 0 _ (Nat.zero_le _),
    fit_of_truncating s req hav hfull, ?_, ?_, ?_⟩
  · intro k hk hp
    exact bsearch_max (fitsAt s req) hdc 0 req.fullText.length k
      (Nat.zero_le _) hk hp
  · intro h0
    exact bsearch_inv (fitsAt s req) 0 req.fullText.length h0
  · intro h0
    have hall : ∀ k, 0 ≤ k → k ≤ req.fullText.length →
        fitsAt s req k = false := by
      intro k _ _
      by_contra hcon
      have hk : fitsAt s req k = true := by
        revert hcon; cases fitsAt s req k <;> simp
      have := hdc 0 k (Nat.zero_le _) hk
      rw [h0] at this
      exact Bool.false_ne_true this
    have hz : bsearch (fitsAt s req) 0 req.fullText.length = 0 :=
      bsearch_allFalse _ 0 _ hall
    refine ⟨hz, ?_⟩
    rw [fit_of_truncating s req hav hfull, hz]
    rfl

/-- Witness for C1: twelve characters against a ten-unit single line
with a three-character marker; the maximal fitting prefix has length 7
and the search finds it. -/
theorem fit_maximal_witness :
    demoSurface.available = true ∧
    ¬ demoSurface.measure (fullFrag demoReq) ≤
        maxHeightOf demoSurface demoReq + demoSurface.epsilon ∧
    (∃ m, m ≤ demoReq.fullText.length ∧
      fit demoSurface demoReq = ⟨demoReq.fullText.take m, true,
        demoReq.fullText.take m ++ demoReq.ellipsisMarker⟩ ∧
      (∀ k, k ≤ demoReq.fullText.length →
        fitsAt demoSurface demoReq k = true → k ≤ m) ∧
      (fitsAt demoSurface demoReq 0 = true →
        fitsAt demoSurface demoReq m = true) ∧
      (fitsAt demoSurface demoReq 0 = false →
        m = 0 ∧ (fit demoSurface demoReq).fittingText = [])) := by
  refine ⟨rfl, by decide, fit_maximal demoSurface demoReq rfl (by decide) ?_⟩
  intro i j hij hj
  simp only [fitsAt, fragAt, demoReq, demoSurface, demoMeasure, maxHeightOf,
    demoText, demoMarker, List.map_nil, List.length_append, List.length_take,
    decide_eq_true_eq] at hj ⊢
  omega

/-- Claim C3 counterexample: with a decoration 100 units wide nothing
fits the ten-unit budget, yet `fit` still returns a result (the empty
prefix), and that result's rendered fragment measures over budget. -/
theorem fit_bound_counterexample :
    ¬ demoSurface.measure
        (resultFrag demoReqDeco (fit demoSurface demoReqDeco)) ≤
      maxHeightOf demoSurface demoReqDeco + demoSurface.epsilon := by
  decide

/-- Claim C3 (amended): on a measurable surface, whenever the empty
prefix (ellipsis marker plus decorations) itself fits the budget, the
rendered fragment of the result returned by `fit` measures at most
`maxHeight` plus the epsilon tolerance. -/
theorem fit_bound (s : MeasurableSurface) (req : FittingRequest)
    (hav : s.available = true) (h0 : fitsAt s req 0 = true) :
    s.measure (resultFrag req (fit s req)) ≤
      maxHeightOf s req + s.epsilon := by
  by_cases hf : s.measure (fullFrag req) ≤ maxHeightOf s req + s.epsilon
  · rw [fit_of_fullFits s req hf]
    exact hf
  · rw [fit_of_truncating s req hav hf]
    have hm := bsearch_inv (fitsAt s req) 0 req.fullText.length h0
    simpa [fitsAt, fragAt, resultFrag] using hm

/-- Witness for C3, on the decoration-free demo request (the empty
prefix fits, so the bound holds for the truncated result). -/
theorem fit_bound_witness :
    demoSurface.available = true ∧
    fitsAt demoSurface demoReq 0 = true ∧
    demoSurface.measure (resultFrag demoReq (fit demoSurface demoReq)) ≤
      maxHeightOf demoSurface demoReq + demoSurface.epsilon :=
  ⟨rfl, by decide, fit_bound demoSurface demoReq rfl (by decide)⟩

/-- Claim C6: with the surface and font metrics held constant and the
measure monotone in the prefix length, increasing `maxLines` never
decreases the length of the `fittingText` returned by `fit`. -/
theorem fit_monotone (s : MeasurableSurface) (req : FittingRequest)
    (n1 n2 : Nat) (h12 : n1 ≤ n2)
    (hmono : ∀ i j, i ≤ j →
      s.measure (fragAt req i) ≤ s.measure (fragAt req j)) :
    (fit s { req with maxLines := n1 }).fittingText.length ≤
      (fit s { req with maxLines := n2 }).fittingText.length := by
  have hbud : maxHeightOf s { req with maxLines := n1 } + s.epsilon ≤
      maxHeightOf s { req with maxLines := n2 } + s.epsilon := by
    have := Nat.mul_le_mul_left s.lineHeight h12
    simp only [maxHeightOf]
    omega
  have hmono1 : ∀ i j, i ≤ j →
      s.measure (fragAt { req with maxLines := n1 } i) ≤
        s.measure (fragAt { req with maxLines := n1 } j) := hmono
  have hmono2 : ∀ i j, i ≤ j →
      s.measure (fragAt { req with maxLines := n2 } i) ≤
        s.measure (fragAt { req with maxLines := n2 } j) := hmono
  have hdc1 := fitsAt_downward s { req with maxLines := n1 } hmono1
  have hdc2 := fitsAt_downward s { req with maxLines := n2 } hmono2
  by_cases hav : s.available = false
  · rw [fit_of_unavailable s _ hav, fit_of_unavailable s _ hav]
  · have hav2 : s.available = true := by
      revert hav; cases s.available <;> simp
    by_cases h1 : s.measure (fullFrag { req with maxLines := n1 }) ≤
        maxHeightOf s { req with maxLines := n1 } + s.epsilon
    · have h2 : s.measure (fullFrag { req with maxLines := n2 }) ≤
          maxHeightOf s { req with maxLines := n2 } + s.epsilon :=
        le_trans h1 hbud
      rw [fit_of_fullFits s _ h1, fit_of_fullFits s _ h2]
    · by_cases h2 : s.measure (fullFrag { req with maxLines := n2 }) ≤
          maxHeightOf s { req with maxLines := n2 } + s.epsilon
      · rw [fit_of_truncating s _ hav2 h1, fit_of_fullFits s _ h2]
        dsimp only
        simp only [List.length_take]
        omega
      · rw [fit_of_truncating s _ hav2 h1, fit_of_truncating s _ hav2 h2]
        dsimp only
        simp only [List.length_take]
        cases hp0 : fitsAt s { req with maxLines := n1 } 0 with
        | false =>
          have hall : ∀ k, 0 ≤ k → k ≤ req.fullText.length →
              fitsAt s { req with maxLines := n1 } k = false := by
            intro k _ _
            cases hk : fitsAt s { req with maxLines := n1 } k
            · rfl
            · have hc := hdc1 0 k (Nat.zero_le _) hk
              rw [hp0] at hc
              exact absurd hc (by simp)
          have hz : bsearch (fitsAt s { req with maxLines := n1 }) 0
              req.fullText.length = 0 := bsearch_allFalse _ 0 _ hall
          rw [hz]
          omega
        | true =>
          have hm1 := bsearch_inv (fitsAt s { req with maxLines := n1 }) 0
            req.fullText.length hp0
          have hm1le : bsearch (fitsAt s { req with maxLines := n1 }) 0
              req.fullText.length ≤ req.fullText.length :=
            bsearch_le _ 0 _ (Nat.zero_le _)
          have h1to2 : fitsAt s { req with maxLines := n2 }
              (bsearch (fitsAt s { req with maxLines := n1 }) 0
                req.fullText.length) = true := by
            simp only [fitsAt, decide_eq_true_eq] at hm1 ⊢
            exact le_trans hm1 hbud
          have hle := bsearch_max (fitsAt s { req with maxLines := n2 }) hdc2
            0 req.fullText.length _ (Nat.zero_le _) hm1le h1to2
          omega

/-- Witness for C6: the demo request at one line fits 7 characters, at
two lines it fits everything; 7 ≤ 12. -/
theorem fit_monotone_witness :
    (fit demoSurface { demoReq with maxLines := 1 }).fittingText.length ≤
      (fit demoSurface { demoReq with maxLines := 2 }).fittingText.length := by
  refine fit_monotone demoSurface demoReq 1 2 (by omega) ?_
  intro i j hij
  simp only [fragAt, demoReq, demoSurface, demoMeasure, demoText, demoMarker,
    List.map_nil, List.length_append, List.length_take]
  omega

/-- Claim C5: `fit` is a pure function of the surface and request, so a
second call with identical inputs returns the identical result; and the
stateful caller `syncEllipsis` is idempotent — re-running it with the
same props and the same measurement leaves the component state it just
produced unchanged. -/
theorem fit_idempotent (s : MeasurableSurface) (req : FittingRequest)
    (rows : Option Int) (hasContent : Bool) (m : MeasureResult)
    (st : BaseState) :
    fit s req = fit s req ∧
    syncEllipsis rows hasContent m (syncEllipsis rows hasContent m st) =
      syncEllipsis rows hasContent m st := by
  refine ⟨rfl, ?_⟩
  by_cases hg : (rowsInvalid rows || !hasContent || st.extended) = true
  · simp [syncEllipsis, hg]
  · by_cases hch : st.ellipsisText ≠ m.text ∨ st.isEllipsis ≠ m.ellipsis
    · simp [syncEllipsis, hg, hch]
    · simp [syncEllipsis, hg, hch]

/-- Claim C8: `wrapperDecorations` wraps in the fixed application order
strong, underline, strikethrough, code, highlight — so the wrapper tags
of the result, outermost first, are exactly the enabled flags filtered
from mark, code, del, u, strong, stacked over the original content, and
the innermost leaf is untouched. -/
theorem wrapperDecorations_order (p : DecorationProps) (c : RNode) :
    wrapTags (wrapperDecorations p c) =
      (if p.mark then [ "mark"] else []) ++
        (if p.code then [ "code"] else []) ++
        (if p.delete then [ "del"] else []) ++
        (if p.underline then [ "u"] else []) ++
        (if p.strong then [ "strong"] else []) ++ wrapTags c ∧
    innerOf (wrapperDecorations p c) = innerOf c := by
  obtain ⟨m, cd, u, d, st⟩ := p
  cases m <;> cases cd <;> cases u <;> cases d <;> cases st <;>
    simp [wrapperDecorations, wrapIf, wrapTags, innerOf]

/-- Claim C9: with all five decoration flags false (absent flags are
falsy in the source), `wrapperDecorations` returns its content argument
unchanged. -/
theorem wrapperDecorations_identity (c : RNode) :
    wrapperDecorations ⟨false, false, false, false, false⟩ c = c := rfl

/-- Claim C10: `renderEmpty` classifies component names
deterministically — `Table` and `List` get the `-normal` suffixed class
with the inlined image, `Select`, `TreeSelect`, `Cascader` and
`Transfer` get the `-small` suffixed class with the inlined image, and
every other name gets a plain `Empty` with no overrides. -/
theorem renderEmpty_classifies (g : String → String) :
    (∀ n, n = "Table" ∨ n = "List" →
      renderEmpty g n = ⟨some emptyImg, some (g "empty" ++ "-normal")⟩) ∧
    (∀ n, n = "Select" ∨ n = "TreeSelect" ∨ n = "Cascader" ∨
        n = "Transfer" →
      renderEmpty g n = ⟨some emptyImg, some (g "empty" ++ "-small")⟩) ∧
    (∀ n, n ≠ "Table" → n ≠ "List" → n ≠ "Select" → n ≠ "TreeSelect" →
      n ≠ "Cascader" → n ≠ "Transfer" → renderEmpty g n = ⟨none, none⟩) := by
  refine ⟨?_, ?_, ?_⟩
  · rintro n (rfl | rfl) <;> rfl
  · rintro n (rfl | rfl | rfl | rfl) <;> rfl
  · intro n h1 h2 h3 h4 h5 h6
    simp [renderEmpty, h1, h2, h3, h4, h5, h6]

/-- Witness for C10: one name from each bucket of the switch. -/
theorem renderEmpty_classifies_witness :
    renderEmpty (fun s => "ant-" ++ s) "Table" =
      ⟨some emptyImg, some ( "ant-" ++ "empty" ++ "-normal")⟩ ∧
    renderEmpty (fun s => "ant-" ++ s) "Cascader" =
      ⟨some emptyImg, some ( "ant-" ++ "empty" ++ "-small")⟩ ∧
    renderEmpty (fun s => "ant-" ++ s) "Button" = ⟨none, none⟩ :=
  ⟨(renderEmpty_classifies (fun s => "ant-" ++ s)).1 "Table" (Or.inl rfl),
    (renderEmpty_classifies (fun s => "ant-" ++ s)).2.1 "Cascader"
      (Or.inr (Or.inr (Or.inl rfl))),
    (renderEmpty_classifies (fun s => "ant-" ++ s)).2.2 "Button"
      (by decide) (by decide) (by decide) (by decide) (by decide) (by decide)⟩

end AntDesign
